import Mathlib

/-!
# Taskify — verification of the task persistence/query layer

Shallow embedding of the repository's core:

* `TaskService` (src/src/features/tasks/services/taskService.ts): CRUD over a
  single persisted JSON document plus an in-memory subscriber list.
  The persisted document under `TASKS_STORAGE_KEY` is modelled as
  `Option (List Task)` (`none` = key absent); `JSON.stringify`/`JSON.parse`
  round-trips the task collection, so `getAllTasks` on a present document
  returns the stored list.  `new Date()` timestamps are modelled as a `Nat`
  clock value passed to each operation.  Listeners are opaque `Nat` ids; the
  `invocations` field records the sequence of listener calls made by
  `emitChange`.
* the derived view of `useTasks` (src/src/features/tasks/hooks/useTasks.ts):
  `filteredTasks` and `sortedFilteredTasks`.
* `TagService` (tag registry): dedup-by-name tag creation with a 12-colour
  palette.
-/

namespace Taskify

/-- Tag value object (src/src/features/tasks/types/Task.ts). -/
structure Tag where
  id : String
  name : String
  color : String
deriving DecidableEq, Repr

/-- Task entity (src/src/features/tasks/types/Task.ts).  `Date` fields are
modelled as `Nat` milliseconds; optional fields as `Option`. -/
structure Task where
  id : String
  title : String
  description : Option String
  completed : Bool
  dueDate : Option Nat
  tags : List Tag
  createdAt : Nat
  updatedAt : Nat
deriving DecidableEq, Repr

/-- Structure `CreateTaskInput` (types/Task.ts). -/
structure CreateTaskInput where
  title : String
  description : Option String := none
  dueDate : Option Nat := none
  tags : Option (List Tag) := none
deriving DecidableEq, Repr

/-- The partial update record `Partial<Omit<Task, 'id' | 'createdAt'>>` taken
by `TaskService.updateTask`, restricted to the data fields (`updatedAt` is
overwritten by the service regardless, and the claims only concern updates
that do not mention it).  `none` = key absent from the object literal. -/
structure TaskUpdates where
  title : Option String := none
  description : Option (Option String) := none
  completed : Option Bool := none
  dueDate : Option (Option Nat) := none
  tags : Option (List Tag) := none
deriving DecidableEq, Repr

/-- JS `String.prototype.trim()` modelled on the character sequence: drop
whitespace from both ends. -/
def trimChars (l : List Char) : List Char :=
  ((l.dropWhile Char.isWhitespace).reverse.dropWhile Char.isWhitespace).reverse

/-- JS `String.prototype.trim()`. -/
def jsTrim (s : String) : String :=
  String.mk (trimChars s.data)

/-- JS `String.prototype.toLowerCase()` (ASCII-faithful). -/
def jsToLower (s : String) : String :=
  String.mk (s.data.map Char.toLower)

/-- Modelled from the spec: the id-generating utility (`generateId` imported
from `src/utils`, whose source file is not included in the tree) assigns each
created record "an opaque unique string, assigned at creation" (spec §3).
Modelled as an injective function of a per-store counter. -/
def genId (n : Nat) : String :=
  String.mk (List.replicate n 'i')

/-- State of the `TaskService` module: the persisted document, the state of
the id generator, the registered listener set (in insertion order, as a JS
`Set` iterates), and the accumulated sequence of listener invocations. -/
structure StoreState where
  stored : Option (List Task)
  nextId : Nat
  listeners : List Nat
  invocations : List Nat
deriving DecidableEq, Repr

/-- The store holding no document and no listeners, before any operation. -/
def emptyStore : StoreState :=
  { stored := none, nextId := 0, listeners := [], invocations := [] }

/-- Method `TaskService.emitChange`: invokes every registered listener once
(`Array.from(this.listeners)` enumerates each element of the `Set` once;
listener exceptions are caught, so every listener is always invoked). -/
def emitChange (s : StoreState) : StoreState :=
  { s with invocations := s.invocations ++ s.listeners }

/-- Method `TaskService.subscribe`: adds the listener to the `Set` (no-op when
already present; JS `Set` keeps insertion order). -/
def subscribe (s : StoreState) (l : Nat) : StoreState :=
  if l ∈ s.listeners then s else { s with listeners := s.listeners ++ [l] }

/-- Method `TaskService.getAllTasks`: returns `[]` when no document is stored,
otherwise the parsed collection (JSON round-trip restores the stored tasks;
date revival and `tags || []` are identities at this abstraction). -/
def getAllTasks (s : StoreState) : List Task :=
  s.stored.getD []

/-- Method `TaskService.saveTasks`: writes the whole collection as one document and
then notifies subscribers. -/
def saveTasks (s : StoreState) (tasks : List Task) : StoreState :=
  emitChange { s with stored := some tasks }

/-- The `newTask` object literal built by `TaskService.createTask`. -/
def newTaskFrom (id : String) (input : CreateTaskInput) (now : Nat) : Task :=
  { id := id
    title := jsTrim input.title
    description := input.description.map jsTrim
    completed := false
    dueDate := input.dueDate
    tags := input.tags.getD []
    createdAt := now
    updatedAt := now }

/-- Method `TaskService.createTask`: builds the new task (fresh id, trimmed title
and description, both timestamps now), appends it to the loaded collection,
persists, returns it. -/
def createTask (s : StoreState) (input : CreateTaskInput) (now : Nat) :
    Task × StoreState :=
  let newTask := newTaskFrom (genId s.nextId) input now
  let tasks := getAllTasks s
  (newTask, saveTasks { s with nextId := s.nextId + 1 } (tasks ++ [newTask]))

/-- The lookup `tasks.findIndex(task => task.id === taskId)` followed by the read of
`tasks[taskIndex]`: the first task with the given id, if any. -/
def findTask (taskId : String) : List Task → Option Task
  | [] => none
  | t :: ts => if t.id = taskId then some t else findTask taskId ts

/-- The merge `{ ...tasks[taskIndex], ...updates, updatedAt: new Date() }`:
keys present in `updates` override, `updatedAt` is refreshed last, `id` and
`createdAt` are not in the update record and survive. -/
def applyUpdates (t : Task) (u : TaskUpdates) (now : Nat) : Task :=
  { id := t.id
    title := u.title.getD t.title
    description := u.description.getD t.description
    completed := u.completed.getD t.completed
    dueDate := u.dueDate.getD t.dueDate
    tags := u.tags.getD t.tags
    createdAt := t.createdAt
    updatedAt := now }

/-- The write `tasks[taskIndex] = updatedTask` at the first index whose task has the
given id: replace the first match, keep everything else. -/
def updateTaskList (taskId : String) (u : TaskUpdates) (now : Nat) :
    List Task → List Task
  | [] => []
  | t :: ts =>
      if t.id = taskId then applyUpdates t u now :: ts
      else t :: updateTaskList taskId u now ts

/-- Method `TaskService.updateTask`: load, locate by id, return the `null` sentinel
when absent, otherwise merge, store back at the same index, persist, return
the updated task. -/
def updateTask (s : StoreState) (taskId : String) (u : TaskUpdates)
    (now : Nat) : Option Task × StoreState :=
  let tasks := getAllTasks s
  match findTask taskId tasks with
  | none => (none, s)
  | some t =>
      (some (applyUpdates t u now), saveTasks s (updateTaskList taskId u now tasks))

/-- Method `TaskService.toggleTaskCompletion`: find the task, return the `null`
sentinel when absent, otherwise delegate to `updateTask` with the flipped
`completed` flag. -/
def toggleTaskCompletion (s : StoreState) (taskId : String) (now : Nat) :
    Option Task × StoreState :=
  match findTask taskId (getAllTasks s) with
  | none => (none, s)
  | some t => updateTask s taskId { completed := some (!t.completed) } now

/-- Method `TaskService.deleteTask`: filter the task out; when nothing was removed
(lengths equal) return `false` without writing, otherwise persist the
filtered collection and return `true`. -/
def deleteTask (s : StoreState) (taskId : String) : Bool × StoreState :=
  let tasks := getAllTasks s
  let filteredTasks := tasks.filter (fun t => t.id != taskId)
  if filteredTasks.length = tasks.length then (false, s)
  else (true, saveTasks s filteredTasks)

/-- Method `TaskService.clearAllTasks`: remove the persisted document
(`AsyncStorage.removeItem`, which succeeds also when the key is absent) and
notify subscribers. -/
def clearAllTasks (s : StoreState) : StoreState :=
  emitChange { s with stored := none }

/-! ## Derived view (useTasks.ts) -/

/-- Type `TaskStatus` (types/Task.ts). -/
inductive TaskStatus where
  | all
  | active
  | completed
  | overdue
deriving DecidableEq, Repr

/-- Type `TaskFilter` (types/Task.ts), restricted to the fields `useTasks` reads. -/
structure TaskFilter where
  status : TaskStatus
  searchQuery : Option String := none
deriving DecidableEq, Repr

/-- JS `haystack.includes(needle)` on character sequences: `needle` occurs as
a contiguous substring (the empty needle always occurs). -/
def charsContain (hay pat : List Char) : Bool :=
  match hay with
  | [] => pat.isEmpty
  | _ :: t => pat.isPrefixOf hay || charsContain t pat

/-- JS `String.prototype.includes`. -/
def strIncludes (s pat : String) : Bool :=
  charsContain s.data pat.data

/-- The status arm of the filter predicate in `useTasks` (the `switch` on
`filter.status`; `all` and the `default` arm keep the task). -/
def statusKeep (st : TaskStatus) (t : Task) : Bool :=
  match st with
  | TaskStatus.active => !t.completed
  | TaskStatus.completed => t.completed
  | _ => true

/-- The search arm of the filter predicate in `useTasks`: applied only when
`filter.searchQuery?.trim()` is truthy; the query is lowercased (not
trimmed) and matched against the lowercased title and description
(`task.description?.toLowerCase().includes(query)` is falsy when the
description is absent). -/
def searchKeep (sq : Option String) (t : Task) : Bool :=
  match sq with
  | none => true
  | some q =>
      if (jsTrim q).data.isEmpty then true
      else
        strIncludes (jsToLower t.title) (jsToLower q) ||
          (match t.description with
           | none => false
           | some d => strIncludes (jsToLower d) (jsToLower q))

/-- The single-pass `tasks.filter(...)` of `useTasks` (early `return false`
on a failing status check, then on a failing search check). -/
def filteredTasks (tasks : List Task) (f : TaskFilter) : List Task :=
  tasks.filter (fun t => statusKeep f.status t && searchKeep f.searchQuery t)

/-- The comparator of `sortedFilteredTasks` as a `Bool` order:
`cmp a b ≤ 0`.  Differing completion: `a` first iff `a` is incomplete;
equal completion: `b.createdAt - a.createdAt ≤ 0`, i.e. newest first. -/
def viewLe (a b : Task) : Bool :=
  if a.completed = b.completed then decide (b.createdAt ≤ a.createdAt)
  else !a.completed

/-- The comparator as a decidable relation. -/
def viewLeR (a b : Task) : Prop :=
  viewLe a b = true

instance viewLeR.decRel : DecidableRel viewLeR :=
  fun a b => instDecidableEqBool (viewLe a b) true

/-- The view sort `[...filteredTasks].sort(comparator)`: JS `sort` (ES2019+) is stable,
and for this consistent comparator the stable sorted permutation is unique;
`List.insertionSort` is a stable sorting algorithm and computes it. -/
def sortedFilteredTasks (tasks : List Task) (f : TaskFilter) : List Task :=
  List.insertionSort viewLeR (filteredTasks tasks f)

/-- Stated from the spec's words, stage (1): "keeping tasks matching the
status filter (all/active/completed)". -/
def specStatusFilter (st : TaskStatus) (tasks : List Task) : List Task :=
  tasks.filter (statusKeep st)

/-- Stated from the spec's words, stage (2): "keeping tasks whose title or
description case-insensitively contains the search string when one is
present". -/
def specSearchFilter (sq : Option String) (tasks : List Task) : List Task :=
  tasks.filter (searchKeep sq)

/-- Stated from the spec's words, stage (3): the relation "completed tasks
after incomplete ones and, within each completion group, newest `createdAt`
first" that consecutive elements of the visible sequence must satisfy. -/
def specOrdered (a b : Task) : Prop :=
  (a.completed = false ∧ b.completed = true) ∨
    (a.completed = b.completed ∧ b.createdAt ≤ a.createdAt)

/-! ## Tag registry (TagService) -/

/-- The `TAG_COLORS` palette. -/
def TAG_COLORS : List String :=
  ["#FF6B6B", "#4ECDC4", "#45B7D1", "#96CEB4", "#FECA57", "#FF9FF3",
   "#54A0FF", "#5F27CD", "#00D2D3", "#FF9F43", "#8395A7", "#3D5A80"]

/-- State of the `TagService` module: the persisted tag document under
`TAGS_STORAGE_KEY` plus the id-generator state. -/
structure TagState where
  stored : Option (List Tag)
  nextId : Nat
deriving DecidableEq, Repr

/-- Method `TagService.getAllTags`. -/
def getAllTags (s : TagState) : List Tag :=
  s.stored.getD []

/-- Method `TagService.getNextColor`: first palette colour not already used by an
existing tag; when every palette colour is used, cycle by registry size. -/
def getNextColor (existingTags : List Tag) : String :=
  let usedColors := existingTags.map Tag.color
  let availableColors := TAG_COLORS.filter (fun c => !usedColors.contains c)
  match availableColors with
  | c :: _ => c
  | [] => TAG_COLORS.getD (existingTags.length % TAG_COLORS.length) ""

/-- Method `TagService.createOrGetTag`: return the first tag whose lowercased name
equals the trimmed, lowercased input (persisting nothing); otherwise build a
new tag (fresh id, trimmed name, next colour), persist the appended
collection, return it. -/
def createOrGetTag (s : TagState) (name : String) : Tag × TagState :=
  let normalizedName := jsToLower (jsTrim name)
  let existingTags := getAllTags s
  match existingTags.find? (fun tag => jsToLower tag.name == normalizedName) with
  | some existingTag => (existingTag, s)
  | none =>
      let newTag : Tag :=
        { id := genId s.nextId, name := jsTrim name,
          color := getNextColor existingTags }
      (newTag, { stored := some (existingTags ++ [newTag]),
                 nextId := s.nextId + 1 })

/-! ## Abstract replay model (spec §8)

The spec's replay property compares the store against "replaying that
sequence against an empty initial collection": a plain list of tasks, where
`create` appends the created task, `update` locates the task by id, merges
the provided fields over it and refreshes `updatedAt` (unchanged when the id
is absent), and `delete` removes the matching task. -/

/-- One store operation of the replayed sequence, carrying the clock value
at which it executes. -/
inductive Op where
  | create (input : CreateTaskInput) (now : Nat)
  | update (taskId : String) (u : TaskUpdates) (now : Nat)
  | delete (taskId : String)
deriving DecidableEq, Repr

/-- Abstract model state: the bare collection plus the id-generator state. -/
structure AbsState where
  tasks : List Task
  nextId : Nat
deriving DecidableEq, Repr

/-- Stated from the spec's words: one abstract replay step on the bare
collection. -/
def absStep (a : AbsState) : Op → AbsState
  | Op.create input now =>
      { tasks := a.tasks ++ [newTaskFrom (genId a.nextId) input now],
        nextId := a.nextId + 1 }
  | Op.update taskId u now =>
      { a with tasks :=
          match findTask taskId a.tasks with
          | none => a.tasks
          | some _ => updateTaskList taskId u now a.tasks }
  | Op.delete taskId =>
      { a with tasks := a.tasks.filter (fun t => t.id != taskId) }

/-- Abstract replay of a whole sequence from a given abstract state. -/
def replayAbs (ops : List Op) (a : AbsState) : AbsState :=
  ops.foldl absStep a

/-- One concrete step: run the corresponding `TaskService` operation and
keep the resulting store. -/
def implStep (s : StoreState) : Op → StoreState
  | Op.create input now => (createTask s input now).2
  | Op.update taskId u now => (updateTask s taskId u now).2
  | Op.delete taskId => (deleteTask s taskId).2

/-- Concrete replay of a whole sequence against the `TaskService` store. -/
def replayImpl (ops : List Op) (s : StoreState) : StoreState :=
  ops.foldl implStep s

/-- A concrete task used to instantiate theorems with hypotheses. -/
def tW : Task :=
  { id := "a", title := "walk", description := none, completed := false,
    dueDate := none, tags := [], createdAt := 10, updatedAt := 10 }

/-- A concrete one-task store used to instantiate theorems with hypotheses. -/
def sW : StoreState :=
  { stored := some [tW], nextId := 1, listeners := [7, 9], invocations := [] }

/-- C10.  Create trims but never validates: `createTask` stores
`input.title.trim()` as the title and the trimmed description, and an
all-whitespace title is persisted as a task with the empty-string title
(no validation happens inside `createTask`). -/
theorem C10_create_trims_no_validation :
    (∀ (s : StoreState) (input : CreateTaskInput) (now : Nat),
        (createTask s input now).1.title = jsTrim input.title ∧
        (createTask s input now).1.description = input.description.map jsTrim) ∧
    ∀ (s : StoreState) (now : Nat),
      (createTask s { title := "   " } now).1.title = "" ∧
      (createTask s { title := "   " } now).1 ∈
        getAllTasks (createTask s { title := "   " } now).2 := by
  refine ⟨fun s input now => ⟨rfl, rfl⟩, fun s now => ⟨?_, ?_⟩⟩
  · show jsTrim "   " = ""
    decide
  · show _ ∈ getAllTasks s ++ [(createTask s { title := "   " } now).1]
    exact List.mem_append_right _ (List.mem_singleton.mpr rfl)

/-- C9.  Not-found silence: whenever `updateTask` or `toggleTaskCompletion`
returns the `null` sentinel, or `deleteTask` returns `false`, the whole store
state is unchanged — in particular the persisted document is not written and
no listener is invoked. -/
theorem C9_notfound_no_write_no_notify (s : StoreState) (x : String)
    (u : TaskUpdates) (now : Nat) :
    ((updateTask s x u now).1 = none → (updateTask s x u now).2 = s) ∧
    ((toggleTaskCompletion s x now).1 = none →
      (toggleTaskCompletion s x now).2 = s) ∧
    ((deleteTask s x).1 = false → (deleteTask s x).2 = s) := by
  refine ⟨?_, ?_, ?_⟩
  · cases h : findTask x (getAllTasks s) <;> simp [updateTask, h]
  · cases h : findTask x (getAllTasks s) <;>
      simp [toggleTaskCompletion, updateTask, h]
  · by_cases h :
      ((getAllTasks s).filter (fun t => t.id != x)).length =
        (getAllTasks s).length <;>
      simp [deleteTask, h]

/-- C9 witness: at the empty store every lookup misses, and each of the
three sentinel outcomes leaves the store untouched. -/
theorem C9_witness :
    (updateTask emptyStore "a" {} 0).2 = emptyStore ∧
    (toggleTaskCompletion emptyStore "a" 0).2 = emptyStore ∧
    (deleteTask emptyStore "a").2 = emptyStore :=
  ⟨(C9_notfound_no_write_no_notify emptyStore "a" {} 0).1 rfl,
   (C9_notfound_no_write_no_notify emptyStore "a" {} 0).2.1 rfl,
   (C9_notfound_no_write_no_notify emptyStore "a" {} 0).2.2 rfl⟩

/-- C7.  `clearAllTasks` empties the store (`getAllTasks` returns `[]`
afterwards), performs exactly one `emitChange` in which every registered
listener is invoked exactly once, and a second consecutive `clearAllTasks`
also succeeds, again leaving the collection empty. -/
theorem C7_clearAll_contract (s : StoreState) (hnd : s.listeners.Nodup) :
    getAllTasks (clearAllTasks s) = [] ∧
    (clearAllTasks s).invocations = s.invocations ++ s.listeners ∧
    (∀ l ∈ s.listeners,
        ((clearAllTasks s).invocations.drop s.invocations.length).count l = 1) ∧
    getAllTasks (clearAllTasks (clearAllTasks s)) = [] ∧
    (clearAllTasks (clearAllTasks s)).invocations =
      (s.invocations ++ s.listeners) ++ s.listeners := by
  refine ⟨rfl, rfl, ?_, rfl, rfl⟩
  intro l hl
  have hdrop :
      ((clearAllTasks s).invocations.drop s.invocations.length) = s.listeners :=
    List.drop_left _ _
  rw [hdrop]
  exact List.count_eq_one_of_mem hnd hl

/-- C7 witness: on a concrete store with listeners `[7, 9]`, clearing yields
an empty collection, and listener `7` is invoked exactly once by the call. -/
theorem C7_witness :
    getAllTasks (clearAllTasks sW) = [] ∧
    ((clearAllTasks sW).invocations.drop sW.invocations.length).count 7 = 1 :=
  ⟨(C7_clearAll_contract sW (by decide)).1,
   (C7_clearAll_contract sW (by decide)).2.2.1 7 (by decide)⟩

/-- C6.  Delete semantics: `deleteTask` on a missing id returns `false` and
leaves the store unchanged (no exception — the operation is total); on a
present id it returns `true` and the resulting collection has no task with
that id. -/
theorem C6_delete_semantics (s : StoreState) (x : String) :
    ((∀ t ∈ getAllTasks s, t.id ≠ x) → deleteTask s x = (false, s)) ∧
    ((∃ t ∈ getAllTasks s, t.id = x) →
      (deleteTask s x).1 = true ∧
        ∀ t ∈ getAllTasks (deleteTask s x).2, t.id ≠ x) := by
  constructor
  · intro h
    have hf : (getAllTasks s).filter (fun t => t.id != x) = getAllTasks s :=
      List.filter_eq_self.mpr (fun a ha => by simpa using h a ha)
    simp [deleteTask, hf]
  · rintro ⟨t, ht, hid⟩
    have hcond : ¬∀ a ∈ s.stored.getD [], ¬a.id = x := fun hall => hall t ht hid
    refine ⟨by simp [deleteTask, getAllTasks, hcond], ?_⟩
    intro t' ht'
    have hmem : t' ∈ (getAllTasks s).filter (fun t => t.id != x) := by
      have h2 :
          getAllTasks (deleteTask s x).2 =
            (getAllTasks s).filter (fun t => t.id != x) := by
        simp [deleteTask, getAllTasks, saveTasks, emitChange, hcond]
      rwa [h2] at ht'
    simpa using (List.mem_filter.mp hmem).2

/-- C6 witness: on the one-task store, deleting the missing id `"b"` returns
`false` with the store intact, and deleting the present id `"a"` returns
`true`. -/
theorem C6_witness :
    deleteTask sW "b" = (false, sW) ∧ (deleteTask sW "a").1 = true :=
  ⟨(C6_delete_semantics sW "b").1 (by decide),
   ((C6_delete_semantics sW "a").2 ⟨tW, by decide, rfl⟩).1⟩

/-- The lookup `findIndex`/`tasks[idx]` on a collection split around its first task with
the sought id finds exactly that task. -/
theorem findTask_append_cons (x : String) (t : Task) (post : List Task) :
    ∀ pre : List Task, (∀ p ∈ pre, p.id ≠ x) → t.id = x →
      findTask x (pre ++ t :: post) = some t := by
  intro pre
  induction pre with
  | nil => intro _ hid; simp [findTask, hid]
  | cons p ps ih =>
      intro hpre hid
      have hp : p.id ≠ x := hpre p (by simp)
      simpa [findTask, hp] using ih (fun q hq => hpre q (by simp [hq])) hid

/-- Writing the merged task back at the first matching index replaces
exactly that element. -/
theorem updateTaskList_append_cons (x : String) (u : TaskUpdates) (now : Nat)
    (t : Task) (post : List Task) :
    ∀ pre : List Task, (∀ p ∈ pre, p.id ≠ x) → t.id = x →
      updateTaskList x u now (pre ++ t :: post) =
        pre ++ applyUpdates t u now :: post := by
  intro pre
  induction pre with
  | nil => intro _ hid; simp [updateTaskList, hid]
  | cons p ps ih =>
      intro hpre hid
      have hp : p.id ≠ x := hpre p (by simp)
      simpa [updateTaskList, hp] using
        ih (fun q hq => hpre q (by simp [hq])) hid

/-- After an in-place update of the first task with the sought id, looking
the id up again finds the merged task. -/
theorem findTask_updateTaskList (x : String) (u : TaskUpdates) (now : Nat) :
    ∀ (l : List Task) (t : Task), findTask x l = some t →
      findTask x (updateTaskList x u now l) = some (applyUpdates t u now) := by
  intro l
  induction l with
  | nil => intro t h; simp [findTask] at h
  | cons a as ih =>
      intro t h
      by_cases ha : a.id = x
      · simp only [findTask, if_pos ha, Option.some.injEq] at h
        subst h
        simp [updateTaskList, ha, findTask, applyUpdates]
      · simp only [findTask, if_neg ha] at h
        simpa [updateTaskList, ha, findTask, applyUpdates] using ih t h

/-- C5.  Update frame: when the collection splits as `pre ++ t :: post` with
`t` the first task carrying the sought id, `updateTask` returns a task whose
mentioned fields take the provided values, whose unmentioned fields,
`id` and `createdAt` are unchanged and whose `updatedAt` is refreshed, and
persists the collection with only that position replaced — every other task
is unchanged. -/
theorem C5_update_frame (s : StoreState) (x : String) (u : TaskUpdates)
    (now : Nat) (t : Task) (pre post : List Task)
    (hsplit : getAllTasks s = pre ++ t :: post)
    (hpre : ∀ p ∈ pre, p.id ≠ x) (hid : t.id = x) :
    ∃ t', (updateTask s x u now).1 = some t' ∧
      getAllTasks (updateTask s x u now).2 = pre ++ t' :: post ∧
      t'.id = t.id ∧ t'.createdAt = t.createdAt ∧ t'.updatedAt = now ∧
      (∀ v, u.title = some v → t'.title = v) ∧
      (u.title = none → t'.title = t.title) ∧
      (∀ v, u.description = some v → t'.description = v) ∧
      (u.description = none → t'.description = t.description) ∧
      (∀ v, u.completed = some v → t'.completed = v) ∧
      (u.completed = none → t'.completed = t.completed) ∧
      (∀ v, u.dueDate = some v → t'.dueDate = v) ∧
      (u.dueDate = none → t'.dueDate = t.dueDate) ∧
      (∀ v, u.tags = some v → t'.tags = v) ∧
      (u.tags = none → t'.tags = t.tags) := by
  have hfind : findTask x (getAllTasks s) = some t := by
    rw [hsplit]; exact findTask_append_cons x t post pre hpre hid
  refine ⟨applyUpdates t u now, ?_, ?_, rfl, rfl, rfl, ?_, ?_, ?_, ?_, ?_, ?_,
    ?_, ?_, ?_, ?_⟩
  · simp [updateTask, hfind]
  · have h2 : getAllTasks (updateTask s x u now).2 =
        updateTaskList x u now (getAllTasks s) := by
      simp only [updateTask, hfind]
      rfl
    rw [h2, hsplit]
    exact updateTaskList_append_cons x u now t post pre hpre hid
  all_goals
    first
      | (intro v hv; simp [applyUpdates, hv])
      | (intro hv; simp [applyUpdates, hv])

/-- Update record used to instantiate the update theorems. -/
def uW : TaskUpdates := { title := some "buy milk", completed := some true }

/-- C5 witness: updating the single task of the concrete store returns a
task stamped with the new clock value, and the persisted collection is that
task alone. -/
theorem C5_witness :
    ∃ t', (updateTask sW "a" uW 20).1 = some t' ∧
      getAllTasks (updateTask sW "a" uW 20).2 = [] ++ t' :: [] ∧
      t'.updatedAt = 20 := by
  obtain ⟨t', h1, h2, -, -, h5, -⟩ :=
    C5_update_frame sW "a" uW 20 tW [] [] rfl (by simp) rfl
  exact ⟨t', h1, h2, h5⟩

/-- When the lookup succeeds, `toggleTaskCompletion` is exactly the
`updateTask` flipping `completed`. -/
theorem toggle_found (s : StoreState) (x : String) (now : Nat) (t : Task)
    (hfind : findTask x (getAllTasks s) = some t) :
    toggleTaskCompletion s x now =
      (some (applyUpdates t { completed := some (!t.completed) } now),
       saveTasks s (updateTaskList x { completed := some (!t.completed) } now
         (getAllTasks s))) := by
  simp only [toggleTaskCompletion, updateTask, hfind]

/-- C4.  Toggle involution: starting from any store whose collection holds a
task `t` with the sought id, toggling twice (at strictly increasing clock
values, the second after the first) returns the task to its original
`completed` value, with `updatedAt` strictly increasing at each call. -/
theorem C4_toggle_involution (s : StoreState) (x : String) (t : Task)
    (now₁ now₂ : Nat) (hfind : findTask x (getAllTasks s) = some t)
    (h1 : t.updatedAt < now₁) (h2 : now₁ < now₂) :
    ∃ t₁ t₂,
      (toggleTaskCompletion s x now₁).1 = some t₁ ∧
      (toggleTaskCompletion (toggleTaskCompletion s x now₁).2 x now₂).1 =
        some t₂ ∧
      findTask x (getAllTasks
        (toggleTaskCompletion (toggleTaskCompletion s x now₁).2 x now₂).2) =
        some t₂ ∧
      t₁.completed = !t.completed ∧
      t₂.completed = t.completed ∧
      t.updatedAt < t₁.updatedAt ∧ t₁.updatedAt < t₂.updatedAt := by
  have e1 := toggle_found s x now₁ t hfind
  have hfind1 : findTask x (getAllTasks (toggleTaskCompletion s x now₁).2) =
      some (applyUpdates t { completed := some (!t.completed) } now₁) := by
    rw [e1]
    exact findTask_updateTaskList x _ now₁ (getAllTasks s) t hfind
  have e2 := toggle_found (toggleTaskCompletion s x now₁).2 x now₂ _ hfind1
  refine ⟨applyUpdates t { completed := some (!t.completed) } now₁,
    applyUpdates (applyUpdates t { completed := some (!t.completed) } now₁)
      { completed := some (!(applyUpdates t
          { completed := some (!t.completed) } now₁).completed) } now₂,
    by rw [e1], by rw [e2], ?_, rfl, ?_, h1, h2⟩
  · rw [e2]
    exact findTask_updateTaskList x _ now₂ _ _ hfind1
  · simp [applyUpdates]

/-- C4 witness: toggling the concrete store's task twice at clock values 11
then 12 restores its original `completed` value. -/
theorem C4_witness :
    ∃ t₂, (toggleTaskCompletion (toggleTaskCompletion sW "a" 11).2 "a" 12).1 =
        some t₂ ∧ t₂.completed = tW.completed := by
  obtain ⟨t₁, t₂, -, hsnd, -, -, hc, -, -⟩ :=
    C4_toggle_involution sW "a" tW 11 12 (by decide) (by decide) (by decide)
  exact ⟨t₂, hsnd, hc⟩

/-- Distinct generator states yield distinct ids. -/
theorem genId_injective : Function.Injective genId := by
  intro m n h
  have hlen := congrArg (fun s => s.data.length) h
  simpa [genId] using hlen

/-- Every id in the collection was handed out by an earlier state of the id
generator.  This holds of every store reachable from `emptyStore` and is the
sense in which a created id is fresh. -/
def IdInv (s : StoreState) : Prop :=
  ∀ t ∈ getAllTasks s, ∃ k, k < s.nextId ∧ t.id = genId k

/-- The property C2 counts: a task titled `"Buy milk"`, not completed, with
equal timestamps, whose id differs from every id in the collection of `s`. -/
def buyMilkFresh (s : StoreState) (t : Task) : Bool :=
  decide (t.title = "Buy milk") && !t.completed &&
    decide (t.createdAt = t.updatedAt) &&
    !((getAllTasks s).map Task.id).contains t.id

/-- C2.  Create postcondition: from any store whose ids were handed out by
the generator, `createTask {title := "Buy milk"}` followed by `getAllTasks`
yields a collection containing exactly one task titled `"Buy milk"` that is
not completed, has `createdAt = updatedAt`, and carries an id distinct from
every id previously in the collection. -/
theorem C2_create_postcondition (s : StoreState) (now : Nat) (hinv : IdInv s) :
    (getAllTasks (createTask s { title := "Buy milk" } now).2).countP
      (buyMilkFresh s) = 1 := by
  have hlist : getAllTasks (createTask s { title := "Buy milk" } now).2 =
      getAllTasks s ++
        [newTaskFrom (genId s.nextId) { title := "Buy milk" } now] := rfl
  rw [hlist, List.countP_append]
  have hold : (getAllTasks s).countP (buyMilkFresh s) = 0 := by
    rw [List.countP_eq_zero]
    intro t ht hP
    simp [buyMilkFresh] at hP
    exact hP.2 t ht rfl
  have hnew : buyMilkFresh s
      (newTaskFrom (genId s.nextId) { title := "Buy milk" } now) = true := by
    have htitle : jsTrim "Buy milk" = "Buy milk" := by decide
    simp [buyMilkFresh, newTaskFrom, htitle]
    intro x hx h
    obtain ⟨k, hk, hkid⟩ := hinv x hx
    have : k = s.nextId := genId_injective (hkid.symm.trans h)
    omega
  rw [hold, List.countP_singleton, if_pos hnew]

/-- C2 witness: creating `"Buy milk"` at clock 3 in the empty store leaves
exactly one matching task. -/
theorem C2_witness :
    (getAllTasks (createTask emptyStore { title := "Buy milk" } 3).2).countP
      (buyMilkFresh emptyStore) = 1 :=
  C2_create_postcondition emptyStore 3
    (fun t ht => absurd ht (by simp [getAllTasks, emptyStore]))

/-- The comparator is total. -/
theorem viewLeR_total : ∀ a b : Task, viewLeR a b ∨ viewLeR b a := by
  intro a b
  by_cases h : a.completed = b.completed
  · simp only [viewLeR, viewLe, h, if_pos, if_true]
    rcases Nat.le_total b.createdAt a.createdAt with hle | hle
    · exact Or.inl (by simp [h, hle])
    · exact Or.inr (by simp [h, hle])
  · cases ha : a.completed <;> cases hb : b.completed <;>
      simp_all [viewLeR, viewLe]

/-- The comparator is transitive. -/
theorem viewLeR_trans : ∀ a b c : Task,
    viewLeR a b → viewLeR b c → viewLeR a c := by
  intro a b c hab hbc
  cases ha : a.completed <;> cases hb : b.completed <;>
    cases hc : c.completed <;> simp_all [viewLeR, viewLe] <;> omega

instance viewLeR.isTotal : IsTotal Task viewLeR :=
  ⟨viewLeR_total⟩

instance viewLeR.isTrans : IsTrans Task viewLeR :=
  ⟨fun a b c => viewLeR_trans a b c⟩

/-- Consecutive elements ordered by the comparator satisfy the spec's
ordering description. -/
theorem viewLeR_specOrdered {a b : Task} (h : viewLeR a b) :
    specOrdered a b := by
  by_cases hc : a.completed = b.completed
  · exact Or.inr ⟨hc, by simpa [viewLeR, viewLe, hc] using h⟩
  · have hv : viewLe a b = !a.completed := if_neg hc
    have h' : (!a.completed) = true := by rw [← hv]; exact h
    have hA : a.completed = false := by simpa using h'
    have hB : b.completed = true := by
      cases hBc : b.completed
      · exact absurd (hA.trans hBc.symm) hc
      · rfl
    exact Or.inl ⟨hA, hB⟩

/-- Task A of the spec's filtering example: incomplete, created at T1. -/
def tA : Task :=
  { id := "A", title := "alpha", description := none, completed := false,
    dueDate := none, tags := [], createdAt := 1, updatedAt := 1 }

/-- Task B of the spec's filtering example: completed, created at T2 > T1. -/
def tB : Task :=
  { id := "B", title := "beta", description := none, completed := true,
    dueDate := none, tags := [], createdAt := 2, updatedAt := 2 }

/-- Task C of the spec's filtering example: incomplete, created at T3 > T2. -/
def tC : Task :=
  { id := "C", title := "gamma", description := none, completed := false,
    dueDate := none, tags := [], createdAt := 3, updatedAt := 3 }

/-- C3.  Derived-view correctness: the visible sequence is a permutation of
the spec's two filtering stages (status first, then search) applied to the
collection, consecutive visible tasks satisfy the spec's ordering
(completed after incomplete, newest `createdAt` first within each group),
and on the spec's example the "all" view is `[C, A, B]` and the "completed"
view is exactly `[B]`. -/
theorem C3_derived_view :
    (∀ (tasks : List Task) (f : TaskFilter),
      (sortedFilteredTasks tasks f).Perm
          (specSearchFilter f.searchQuery (specStatusFilter f.status tasks)) ∧
      (sortedFilteredTasks tasks f).Pairwise specOrdered) ∧
    sortedFilteredTasks [tA, tB, tC] { status := TaskStatus.all } =
      [tC, tA, tB] ∧
    sortedFilteredTasks [tA, tB, tC] { status := TaskStatus.completed } =
      [tB] := by
  refine ⟨fun tasks f => ⟨?_, ?_⟩, by decide, by decide⟩
  · have h1 : specSearchFilter f.searchQuery (specStatusFilter f.status tasks) =
        filteredTasks tasks f := by
      simp [specSearchFilter, specStatusFilter, filteredTasks,
        List.filter_filter, Bool.and_comm]
    rw [h1]
    exact List.perm_insertionSort viewLeR _
  · exact (List.sorted_insertionSort viewLeR (filteredTasks tasks f)).imp
      viewLeR_specOrdered

/-- When some palette colour is unused, `getNextColor` returns a colour not
used by any existing tag. -/
theorem getNextColor_fresh (tags : List Tag) (c : String) (hc : c ∈ TAG_COLORS)
    (hnc : c ∉ tags.map Tag.color) :
    getNextColor tags ∉ tags.map Tag.color := by
  have hcf : c ∈ TAG_COLORS.filter (fun c => !(tags.map Tag.color).contains c) := by
    refine List.mem_filter.mpr ⟨hc, ?_⟩
    simpa using hnc
  cases hav : TAG_COLORS.filter (fun c => !(tags.map Tag.color).contains c) with
  | nil => rw [hav] at hcf; exact absurd hcf (List.not_mem_nil c)
  | cons d ds =>
      have hres : getNextColor tags = d := by
        simp only [getNextColor, hav]
      have hd : d ∈ TAG_COLORS.filter (fun c => !(tags.map Tag.color).contains c) := by
        rw [hav]; exact List.mem_cons_self d ds
      have := (List.mem_filter.mp hd).2
      rw [hres]
      simpa using this

/-- When every palette colour is used, `getNextColor` cycles by registry
size. -/
theorem getNextColor_cycle (tags : List Tag)
    (hall : ∀ c ∈ TAG_COLORS, c ∈ tags.map Tag.color) :
    getNextColor tags = TAG_COLORS.getD (tags.length % TAG_COLORS.length) "" := by
  have hav : TAG_COLORS.filter (fun c => !(tags.map Tag.color).contains c) = [] := by
    rw [List.filter_eq_nil_iff]
    intro c hc
    simp [hall c hc]
  simp only [getNextColor, hav]

/-- A registry whose twelve tags use all twelve palette colours. -/
def tags12 : List Tag :=
  [{ id := "0", name := "c0", color := "#FF6B6B" },
   { id := "1", name := "c1", color := "#4ECDC4" },
   { id := "2", name := "c2", color := "#45B7D1" },
   { id := "3", name := "c3", color := "#96CEB4" },
   { id := "4", name := "c4", color := "#FECA57" },
   { id := "5", name := "c5", color := "#FF9FF3" },
   { id := "6", name := "c6", color := "#54A0FF" },
   { id := "7", name := "c7", color := "#5F27CD" },
   { id := "8", name := "c8", color := "#00D2D3" },
   { id := "9", name := "c9", color := "#3D5A80" },
   { id := "10", name := "c10", color := "#8395A7" },
   { id := "11", name := "c11", color := "#FF9F43" }]

/-- The saturated tag registry. -/
def sat12 : TagState :=
  { stored := some tags12, nextId := 12 }

/-- The empty tag registry. -/
def emptyTags : TagState :=
  { stored := none, nextId := 0 }

/-- C8 counterexample: in the saturated registry no tag's name matches
`"fresh"`, so `createOrGetTag` takes the create branch — yet the returned
tag's colour (`TAG_COLORS[12 % 12]`) equals the colour of an existing tag,
refuting "a new tag whose color differs from the color of every tag already
in the registry". -/
theorem C8_counterexample :
    (∀ tg ∈ getAllTags sat12,
        jsToLower tg.name ≠ jsToLower (jsTrim "fresh")) ∧
    (createOrGetTag sat12 "fresh").1.color ∈ (getAllTags sat12).map Tag.color := by
  decide

/-- C8 amended.  `createOrGetTag` returns the existing tag and persists
nothing when a tag with a case-insensitively matching name exists; otherwise
it persists and returns a new tag, whose colour differs from every existing
tag's colour **provided some palette colour is still unused** — when all
twelve palette colours are in use, the colour is the palette entry at index
`registry size mod 12`, which can duplicate an existing colour. -/
theorem C8_amended_dedup_and_color (s : TagState) (name : String) :
    (∀ tg, (getAllTags s).find?
        (fun tag => jsToLower tag.name == jsToLower (jsTrim name)) = some tg →
      createOrGetTag s name = (tg, s)) ∧
    ((getAllTags s).find?
        (fun tag => jsToLower tag.name == jsToLower (jsTrim name)) = none →
      getAllTags (createOrGetTag s name).2 =
          getAllTags s ++ [(createOrGetTag s name).1] ∧
      ((∃ c ∈ TAG_COLORS, c ∉ (getAllTags s).map Tag.color) →
        (createOrGetTag s name).1.color ∉ (getAllTags s).map Tag.color) ∧
      ((∀ c ∈ TAG_COLORS, c ∈ (getAllTags s).map Tag.color) →
        (createOrGetTag s name).1.color =
          TAG_COLORS.getD ((getAllTags s).length % TAG_COLORS.length) "")) := by
  constructor
  · intro tg h
    simp only [createOrGetTag, h]
  · intro h
    refine ⟨by simp only [createOrGetTag, h]; rfl, ?_, ?_⟩
    · rintro ⟨c, hc, hnc⟩
      have hcol : (createOrGetTag s name).1.color = getNextColor (getAllTags s) := by
        simp only [createOrGetTag, h]
      rw [hcol]
      exact getNextColor_fresh (getAllTags s) c hc hnc
    · intro hall
      have hcol : (createOrGetTag s name).1.color = getNextColor (getAllTags s) := by
        simp only [createOrGetTag, h]
      rw [hcol]
      exact getNextColor_cycle (getAllTags s) hall

/-- C8 witness: creating `"work"` in the empty registry persists it, and its
colour collides with no existing tag. -/
theorem C8_witness :
    getAllTags (createOrGetTag emptyTags "work").2 =
      getAllTags emptyTags ++ [(createOrGetTag emptyTags "work").1] ∧
    (createOrGetTag emptyTags "work").1.color ∉
      (getAllTags emptyTags).map Tag.color := by
  obtain ⟨h1, h2, -⟩ :=
    (C8_amended_dedup_and_color emptyTags "work").2 rfl
  exact ⟨h1, h2 ⟨"#FF6B6B", by decide, by simp [getAllTags, emptyTags]⟩⟩

/-- One implementation replay step agrees with one abstract step, preserving
the collection and the id-generator state. -/
theorem step_agrees (s : StoreState) (a : AbsState)
    (h1 : getAllTasks s = a.tasks) (h2 : s.nextId = a.nextId) (op : Op) :
    getAllTasks (implStep s op) = (absStep a op).tasks ∧
    (implStep s op).nextId = (absStep a op).nextId := by
  cases op with
  | create input now =>
      constructor
      · show getAllTasks s ++ [newTaskFrom (genId s.nextId) input now] =
          a.tasks ++ [newTaskFrom (genId a.nextId) input now]
        rw [h1, h2]
      · show s.nextId + 1 = a.nextId + 1
        rw [h2]
  | update x u now =>
      have habs : (absStep a (Op.update x u now)).tasks =
          match findTask x (getAllTasks s) with
          | none => getAllTasks s
          | some _ => updateTaskList x u now (getAllTasks s) := by
        simp only [absStep, h1]
      constructor
      · rw [habs]
        cases h : findTask x (getAllTasks s) with
        | none => simp [implStep, updateTask, h]
        | some t => simp only [implStep, updateTask, h]; rfl
      · cases h : findTask x (getAllTasks s) with
        | none => simpa [implStep, updateTask, h, absStep] using h2
        | some t => simpa [implStep, updateTask, h, absStep] using h2
  | delete x =>
      have habs : (absStep a (Op.delete x)).tasks =
          (getAllTasks s).filter (fun t => t.id != x) := by
        simp only [absStep, h1]
      constructor
      · rw [habs]
        by_cases h : ((getAllTasks s).filter (fun t => t.id != x)).length =
            (getAllTasks s).length
        · have hf : (getAllTasks s).filter (fun t => t.id != x) = getAllTasks s :=
            List.filter_eq_self.mpr (List.filter_length_eq_length.mp h)
          simp [deleteTask, implStep, h, hf]
        · simp only [implStep, deleteTask]
          rw [if_neg h]
          rfl
      · by_cases h : ((getAllTasks s).filter (fun t => t.id != x)).length =
            (getAllTasks s).length
        · simpa [implStep, deleteTask, h, absStep] using h2
        · simp only [implStep, deleteTask, absStep]
          rw [if_neg h]
          exact h2

/-- Replaying any operation sequence keeps the store's collection equal to
the abstract model's collection. -/
theorem replay_agrees (ops : List Op) :
    ∀ (s : StoreState) (a : AbsState),
      getAllTasks s = a.tasks → s.nextId = a.nextId →
      getAllTasks (replayImpl ops s) = (replayAbs ops a).tasks := by
  induction ops with
  | nil => intro s a h1 _; exact h1
  | cons op rest ih =>
      intro s a h1 h2
      have h := step_agrees s a h1 h2 op
      exact ih (implStep s op) (absStep a op) h.1 h.2

/-- C1.  Sequential replay equivalence: any sequence of
create/update/delete operations replayed through the `TaskService` store
from the empty store yields, via `getAllTasks`, exactly the multiset of
tasks of the abstract list model replayed from the empty collection — no
task lost, none duplicated. -/
theorem C1_replay_equivalence (ops : List Op) :
    (↑(getAllTasks (replayImpl ops emptyStore)) : Multiset Task) =
      ↑(replayAbs ops { tasks := [], nextId := 0 }).tasks :=
  congrArg _ (replay_agrees ops emptyStore { tasks := [], nextId := 0 } rfl rfl)

end Taskify
